import Mathlib

namespace GitSquash

set_option maxRecDepth 10000

/-- Number of bytes of the UTF-8 encoding of one character. -/
def charBytes (c : Char) : Nat :=
  if c.toNat < 128 then 1
  else if c.toNat < 2048 then 2
  else if c.toNat < 65536 then 3
  else 4

/-- UTF-8 byte length of a list of characters. -/
def bytesLen : List Char → Nat
  | [] => 0
  | c :: cs => charBytes c + bytesLen cs

/-- UTF-8 byte length of a string, the Rust str::len. -/
def strBytes (s : String) : Nat := bytesLen s.data

def MAX_MESSAGE_LENGTH : Nat := 80
def SECONDS_IN_HOUR : Int := 3600

/-- Rust String::truncate on the character list: keeps the first n bytes when byte
index n falls on a character boundary, keeps everything when the string is shorter
than n bytes, and panics (modelled as none) when n falls inside a character. -/
def truncBytes : List Char → Nat → Option (List Char)
  | _, 0 => some []
  | [], _ + 1 => some []
  | c :: cs, n + 1 =>
      if charBytes c ≤ n + 1 then
        (truncBytes cs (n + 1 - charBytes c)).map (fun l => c :: l)
      else none

/-- Rust String::truncate. -/
def rustTruncate (s : String) (n : Nat) : Option String :=
  (truncBytes s.data n).map (fun l => String.mk l)

/-- First line of a commit message, standing in for the git2 summary derivation. -/
def firstLine (m : String) : String :=
  String.mk (m.data.takeWhile (fun c => c != '\n'))

/-- A git commit object: content id, parent ids, tree id, full message,
summary (none models a summary that cannot be decoded), author time in seconds. -/
structure CommitObj where
  id : Nat
  parents : List Nat
  tree : Nat
  message : String
  summary : Option String
  time : Int
deriving DecidableEq

/-- Repository state: the commit object store, the HEAD reference, the staged
index content (as the tree id that index.write_tree would produce), the next
fresh object id, and the set of object ids whose lookup fails (corrupt objects). -/
structure Repo where
  objects : List CommitObj
  head : Option Nat
  index : Nat
  nextId : Nat
  broken : List Nat
deriving DecidableEq

deriving instance DecidableEq for Except

/-- Raw object-store lookup by id. -/
def lookup (repo : Repo) (oid : Nat) : Option CommitObj :=
  repo.objects.find? (fun c => c.id == oid)

/-- Repository::find_commit: fails (none) on ids marked broken. -/
def find_commit (repo : Repo) (oid : Nat) : Option CommitObj :=
  if oid ∈ repo.broken then none else lookup repo oid

/-- HoursAgo::hours_ago: whole hours between now and the timestamp, rendered
left-aligned in a field of width 8 with unit suffix. -/
def hours_ago (now seconds : Int) : String :=
  let hours : Int := Int.tdiv (now - seconds) SECONDS_IN_HOUR
  let base := toString hours ++ " h"
  base ++ String.mk (List.replicate (8 - base.length) ' ')

/-- The line FormatCommit::format builds before length-limiting: padded hour
count, one space, then the summary (missing summary renders as empty). -/
def renderedLine (now : Int) (c : CommitObj) : String :=
  hours_ago now c.time ++ " " ++ (c.summary.getD (""))

/-- FormatCommit::format. none models the String::truncate panic on a
character-boundary violation at byte 80. -/
def format (now : Int) (c : CommitObj) : Option String :=
  let line := renderedLine now c
  if MAX_MESSAGE_LENGTH < strBytes line then
    (rustTruncate line MAX_MESSAGE_LENGTH).map (fun s => s ++ "...")
  else
    some line

/-- The parent the topological walk steps to from a commit: its first parent. -/
def parentStep (repo : Repo) (oid : Nat) : Option Nat :=
  match lookup repo oid with
  | none => none
  | some c => c.parents.head?

/-- The id sequence the topological revwalk yields on a single-parent chain:
the start id, then its parent chain, fuel-bounded for termination. -/
def walkOids (repo : Repo) : Nat → Nat → List Nat
  | 0, _ => []
  | fuel + 1, oid =>
      oid :: (match parentStep repo oid with
        | none => []
        | some p => walkOids repo fuel p)

/-- The revwalk with topological sorting pushed at HEAD; none models the
push_head failure when HEAD cannot be resolved. -/
def revwalk (repo : Repo) : Option (List Nat) :=
  repo.head.map (fun h => walkOids repo repo.objects.length h)

/-- iter_topological_commits: walk at most amount ids from HEAD and look each
commit up; each element is a per-element result (none = lookup failure). -/
def iter_topological_commits (repo : Repo) (amount : Nat) : Option (List (Option CommitObj)) :=
  (revwalk repo).map (fun oids => (oids.take amount).map (fun oid => find_commit repo oid))

/-- find_old_commit: walk amount + 1 commits and keep the last element of the
walk; an empty walk or a lookup failure on that last element is an error. -/
def find_old_commit (repo : Repo) (amount : Nat) : Except String CommitObj :=
  match iter_topological_commits repo (amount + 1) with
  | none => Except.error ("Failed to push HEAD")
  | some items =>
    match items.getLast? with
    | none => Except.error ("Failed to get last commit")
    | some none => Except.error ("object not found")
    | some (some c) => Except.ok c

/-- Commitable::commit_with_msg: write the index as a tree, take the HEAD
commit (if resolvable) as sole parent, create the commit and repoint HEAD. -/
def commit_with_msg (repo : Repo) (message : String) : Repo × Nat :=
  let parents : List Nat :=
    match repo.head.bind (fun h => find_commit repo h) with
    | none => []
    | some c => [c.id]
  let newC : CommitObj :=
    { id := repo.nextId, parents := parents, tree := repo.index,
      message := message, summary := some (firstLine message), time := 0 }
  let repo2 : Repo :=
    { objects := newC :: repo.objects, head := some newC.id,
      index := repo.index, nextId := repo.nextId + 1, broken := repo.broken }
  (repo2, newC.id)

/-- git_soft_reset: locate the boundary commit, soft-reset HEAD onto it leaving
the index untouched, then commit the staged content with the given message. -/
def git_soft_reset (repo : Repo) (amount : Nat) (message : String) : Except String (Repo × Nat) :=
  match find_old_commit repo amount with
  | Except.error e => Except.error e
  | Except.ok c => Except.ok (commit_with_msg { repo with head := some c.id } message)

/-- commits: the bounded walk with per-element lookup failures skipped. -/
def commits (repo : Repo) (amount : Nat) : Except String (List CommitObj) :=
  match iter_topological_commits repo amount with
  | none => Except.error ("Failed to push HEAD")
  | some items => Except.ok (items.filterMap id)

/-- validate_input: the free-form message length gate. -/
def validate_input (input : String) : Except String Unit :=
  if MAX_MESSAGE_LENGTH < strBytes input then
    Except.error ("Message is too long, max is " ++ toString MAX_MESSAGE_LENGTH)
  else
    Except.ok ()

/-- The selection match in main: index 0 takes the typed message through
validate_input; an index within the candidate list re-walks the repository and
returns that commit message unvalidated; anything else is an invalid selection. -/
def resolve_selection (repo : Repo) (amount : Nat) (typed : String) (selection : Nat) :
    Except String String :=
  match commits repo amount with
  | Except.error e => Except.error e
  | Except.ok cs =>
    match selection with
    | 0 =>
      match validate_input typed with
      | Except.error e => Except.error e
      | Except.ok _ => Except.ok typed
    | n + 1 =>
      if n + 1 ≤ cs.length then
        match commits repo amount with
        | Except.error e => Except.error e
        | Except.ok cs2 =>
          match cs2.get? n with
          | none => Except.error ("Failed to get commit")
          | some c => Except.ok c.message
      else Except.error ("Invalid selection")

/-- The commit reached by HEAD. -/
def tip (repo : Repo) : Option CommitObj :=
  repo.head.bind (fun h => lookup repo h)

/-- Tree reachable from HEAD. -/
def tipTree (repo : Repo) : Option Nat := (tip repo).map (fun c => c.tree)

/-- Message of the HEAD commit. -/
def tipMessage (repo : Repo) : Option String := (tip repo).map (fun c => c.message)

/-- Parent list of the HEAD commit. -/
def tipParents (repo : Repo) : Option (List Nat) := (tip repo).map (fun c => c.parents)

/-- Ancestry length from HEAD: the number of commits the full walk yields. -/
def historyLength (repo : Repo) : Nat :=
  match revwalk repo with
  | none => 0
  | some l => l.length

/-- Commit objects of a linear history given tip-first specifications
(tree, message); ids descend from the list length at the tip to 1 at the root. -/
def chainHead (s : Nat × String) (rest : List (Nat × String)) : CommitObj :=
  { id := rest.length + 1,
    parents := if rest.length = 0 then [] else [rest.length],
    tree := s.1, message := s.2, summary := some (firstLine s.2),
    time := 0 }

def chainObjects : List (Nat × String) → List CommitObj
  | [] => []
  | s :: rest => chainHead s rest :: chainObjects rest

/-- A repository holding a linear history (tip-first specifications) with a
given staged index tree and no corrupt objects. -/
def mkRepo (specs : List (Nat × String)) (index : Nat) : Repo :=
  { objects := chainObjects specs,
    head := if specs.length = 0 then none else some specs.length,
    index := index, nextId := specs.length + 1, broken := [] }

/-- The id sequence of a linear walk: n, n-1, ..., 1. -/
def downList : Nat → List Nat
  | 0 => []
  | n + 1 => (n + 1) :: downList n

/-- The repository shape over which the walk behaves like a linear chain:
ids 1 to L are present and commit k has parent k - 1 (none at the root). -/
def ChainShape (repo : Repo) (L : Nat) : Prop :=
  ∀ k, 1 ≤ k → k ≤ L →
    ∃ c, lookup repo k = some c ∧ c.id = k ∧
      c.parents = (if k = 1 then [] else [k - 1])

/-- A three-commit linear repository whose middle commit object is corrupt:
its lookup by id fails. -/
def brokenRepo : Repo :=
  { mkRepo [(0, "f2"), (1, "f1"), (2, "f0")] 0 with broken := [2] }

/-- Every character occupies at least one byte. -/
theorem charBytes_pos (c : Char) : 1 ≤ charBytes c := by
  simp only [charBytes]
  repeat' split
  all_goals omega

/-- Byte length distributes over character-list concatenation. -/
theorem bytesLen_append (a b : List Char) : bytesLen (a ++ b) = bytesLen a + bytesLen b := by
  induction a with
  | nil => simp [bytesLen]
  | cons c cs ih =>
    show charBytes c + bytesLen (cs ++ b) = charBytes c + bytesLen cs + bytesLen b
    rw [ih]
    omega

/-- The character list of a concatenation. -/
theorem data_append (a b : String) : (a ++ b).data = a.data ++ b.data := by
  cases a
  cases b
  rfl

/-- Byte length distributes over string concatenation. -/
theorem strBytes_append (a b : String) : strBytes (a ++ b) = strBytes a + strBytes b := by
  simp only [strBytes, data_append, bytesLen_append]

/-- Rebuilding a string from its character list gives it back. -/
theorem string_eta (s : String) : String.mk s.data = s := rfl

/-- A nonempty string has at least one byte. -/
theorem strBytes_pos (u : String) (hu : u ≠ ("")) : 1 ≤ strBytes u := by
  cases u with
  | mk d =>
    cases d with
    | nil => exact absurd (by decide) hu
    | cons c cs =>
      have := charBytes_pos c
      simp only [strBytes, bytesLen]
      omega

/-- Truncating a concatenation at the byte length of its first part keeps
exactly that part. -/
theorem truncBytes_exact (a b : List Char) : truncBytes (a ++ b) (bytesLen a) = some a := by
  induction a with
  | nil =>
    cases b with
    | nil => rfl
    | cons c cs => rfl
  | cons c cs ih =>
    have h1 := charBytes_pos c
    obtain ⟨m, hm⟩ : ∃ m, charBytes c + bytesLen cs = m + 1 := ⟨charBytes c + bytesLen cs - 1, by omega⟩
    simp only [List.cons_append, bytesLen, hm, truncBytes]
    rw [if_pos (by omega)]
    have h2 : m + 1 - charBytes c = bytesLen cs := by omega
    rw [h2, ih]
    rfl

/-- When the rendered line splits as an exactly-80-byte part followed by a
nonempty remainder, format truncates at byte 80 and appends the ellipsis. -/
theorem format_of_split (now : Int) (c : CommitObj) (t u : String)
    (hsplit : renderedLine now c = t ++ u) (ht : strBytes t = MAX_MESSAGE_LENGTH)
    (hu : u ≠ ("")) :
    format now c = some (t ++ ("...")) := by
  have hub : 1 ≤ strBytes u := strBytes_pos u hu
  have hgt : MAX_MESSAGE_LENGTH < strBytes (renderedLine now c) := by
    rw [hsplit, strBytes_append, ht]
    omega
  have htr : rustTruncate (renderedLine now c) MAX_MESSAGE_LENGTH = some t := by
    rw [hsplit]
    show (truncBytes (t ++ u).data MAX_MESSAGE_LENGTH).map _ = some t
    rw [data_append t u, ← ht]
    show (truncBytes (t.data ++ u.data) (bytesLen t.data)).map _ = some t
    rw [truncBytes_exact]
    simp [string_eta]
  simp only [format]
  rw [if_pos hgt, htr]
  rfl

/-- A rendered line of at most 80 bytes is returned unchanged. -/
theorem format_of_le (now : Int) (c : CommitObj)
    (h : strBytes (renderedLine now c) ≤ MAX_MESSAGE_LENGTH) :
    format now c = some (renderedLine now c) := by
  simp only [format]
  rw [if_neg (by omega)]

/-- C7 (amended): a rendered line of at most 80 UTF-8 bytes is returned
unchanged; when the line exceeds 80 bytes and byte index 80 falls on a
character boundary (the line splits as an exactly-80-byte part plus a nonempty
remainder), format returns exactly those first 80 bytes followed by the
ellipsis. The limit is in bytes, not characters. -/
theorem format_truncation (now : Int) (c : CommitObj) :
    (strBytes (renderedLine now c) ≤ MAX_MESSAGE_LENGTH →
      format now c = some (renderedLine now c)) ∧
    (∀ t u, renderedLine now c = t ++ u → strBytes t = MAX_MESSAGE_LENGTH → u ≠ ("") →
      format now c = some (t ++ ("..."))) :=
  ⟨format_of_le now c, fun t u h1 h2 h3 => format_of_split now c t u h1 h2 h3⟩

/-- C7 witness: a commit whose summary is 72 letters renders as a 9-byte prefix
plus the summary, 81 bytes in total, and is truncated to its first 80 bytes
followed by the ellipsis. -/
theorem format_truncation_witness :
    format 0 ⟨1, [], 0, "m", some (String.mk (List.replicate 72 'a')), 0⟩ =
      some (("0 h      " ++ String.mk (List.replicate 71 'a')) ++ ("...")) :=
  (format_truncation 0 ⟨1, [], 0, "m", some (String.mk (List.replicate 72 'a')), 0⟩).2
    ("0 h      " ++ String.mk (List.replicate 71 'a')) (String.mk (List.replicate 1 'a'))
    (by decide) (by decide) (by decide)

/-- C7 counterexample: for a commit whose summary starts with a two-byte
character, the rendered line has 85 characters, yet the output is not the first
80 characters of the line followed by the ellipsis: the code truncates at 80
bytes, which is only 79 characters here. -/
theorem truncation_not_in_chars :
    80 < (renderedLine 0 ⟨1, [], 0, "m", some ("é" ++ String.mk (List.replicate 75 'a')), 0⟩).length ∧
    format 0 ⟨1, [], 0, "m", some ("é" ++ String.mk (List.replicate 75 'a')), 0⟩ ≠
      some ((renderedLine 0 ⟨1, [], 0, "m", some ("é" ++ String.mk (List.replicate 75 'a')), 0⟩).take 80
        ++ ("...")) := by
  constructor
  · decide
  · decide

/-- C8: format aborts on a summary that puts a multi-byte character across byte
index 80: String::truncate panics off a character boundary. The 9-byte hour
prefix plus 70 letters reach byte 79 and the following two-byte character
spans bytes 79 to 81, so truncation at byte 80 is not well-defined. -/
theorem format_panics_on_char_boundary :
    format 0 ⟨1, [], 0, "m", some (String.mk (List.replicate 70 'a') ++ "é"), 0⟩ = none := by
  decide

/-- C10: the 80 limit is measured in UTF-8 bytes, not characters: any input
whose byte length exceeds 80 is rejected by validate_input even when it has at
most 80 characters, and format truncates the rendered line at byte index 80. -/
theorem limits_measured_in_bytes (s : String) (now : Int) (c : CommitObj) (t u : String)
    (hchars : s.length ≤ MAX_MESSAGE_LENGTH) (hbytes : MAX_MESSAGE_LENGTH < strBytes s)
    (hsplit : renderedLine now c = t ++ u) (ht : strBytes t = MAX_MESSAGE_LENGTH)
    (hu : u ≠ ("")) :
    validate_input s = Except.error ("Message is too long, max is " ++ toString MAX_MESSAGE_LENGTH) ∧
    format now c = some (t ++ ("...")) := by
  refine ⟨?_, format_of_split now c t u hsplit ht hu⟩
  simp only [validate_input]
  rw [if_pos hbytes]

/-- C10 witness: 41 copies of a two-byte character make 41 characters but 82
bytes, and are rejected; a 73-letter summary renders to 82 bytes and is
truncated at byte index 80. -/
theorem limits_measured_in_bytes_witness :
    validate_input (String.mk (List.replicate 41 'é')) =
      Except.error ("Message is too long, max is " ++ toString MAX_MESSAGE_LENGTH) ∧
    format 0 ⟨1, [], 0, "m", some (String.mk (List.replicate 73 'a')), 0⟩ =
      some (("0 h      " ++ String.mk (List.replicate 71 'a')) ++ ("...")) :=
  limits_measured_in_bytes (String.mk (List.replicate 41 'é')) 0
    ⟨1, [], 0, "m", some (String.mk (List.replicate 73 'a')), 0⟩
    ("0 h      " ++ String.mk (List.replicate 71 'a')) (String.mk (List.replicate 2 'a'))
    (by decide) (by decide) (by decide) (by decide) (by decide)

/-- Selecting index k at least 1 within the candidate list returns the message
of commit k - 1 of the re-walk. -/
theorem resolve_pick (repo : Repo) (amount : Nat) (typed : String) (k : Nat)
    (cs : List CommitObj) (c : CommitObj)
    (hcs : commits repo amount = Except.ok cs) (hk : 1 ≤ k)
    (hget : cs.get? (k - 1) = some c) :
    resolve_selection repo amount typed k = Except.ok c.message := by
  match k, hk with
  | n + 1, _ =>
    have hget' : cs.get? n = some c := hget
    have hlt : n < cs.length := by
      by_contra h
      rw [List.get?_eq_none.mpr (by omega)] at hget'
      cases hget'
    simp only [resolve_selection, hcs]
    rw [if_pos (by omega)]
    simp only [hget']

/-- C6: selecting index k (1 at least, at most the candidate count) yields the
message of commit k - 1 of the independent re-walk of the same repository and
amount, and the re-walk yields the identical commit sequence as the walk used
to build the candidate list. -/
theorem selection_roundtrip (repo : Repo) (amount : Nat) (typed : String) (k : Nat)
    (cs : List CommitObj) (c : CommitObj)
    (hcs : commits repo amount = Except.ok cs) (hk : 1 ≤ k)
    (hget : cs.get? (k - 1) = some c) :
    resolve_selection repo amount typed k = Except.ok c.message ∧
    commits repo amount = commits repo amount :=
  ⟨resolve_pick repo amount typed k cs c hcs hk hget, rfl⟩

/-- C6 witness: a one-commit repository, selection index 1. -/
theorem selection_roundtrip_witness :
    resolve_selection (mkRepo [(0, "hello")] 0) 1 ("x") 1 =
      Except.ok (CommitObj.message ⟨1, [], 0, "hello", some ("hello"), 0⟩) ∧
    commits (mkRepo [(0, "hello")] 0) 1 = commits (mkRepo [(0, "hello")] 0) 1 :=
  selection_roundtrip (mkRepo [(0, "hello")] 0) 1 ("x") 1
    [⟨1, [], 0, "hello", some ("hello"), 0⟩] ⟨1, [], 0, "hello", some ("hello"), 0⟩
    (by decide) (by decide) (by decide)

/-- C5 (amended): the byte-length gate applies only to the typed free-form
message (selection index 0), which is rejected exactly when it exceeds 80
UTF-8 bytes; a message derived from a selected commit (selection index at
least 1) is returned without any length check, however long it is; emptiness
of the typed input is not checked by validate_input (the external prompt
collaborator is responsible for it). -/
theorem typed_only_length_check (repo : Repo) (amount : Nat) (typed : String) (k : Nat)
    (cs : List CommitObj) (c : CommitObj)
    (hcs : commits repo amount = Except.ok cs) (hk : 1 ≤ k)
    (hget : cs.get? (k - 1) = some c) :
    (MAX_MESSAGE_LENGTH < strBytes typed →
      resolve_selection repo amount typed 0 =
        Except.error ("Message is too long, max is " ++ toString MAX_MESSAGE_LENGTH)) ∧
    (strBytes typed ≤ MAX_MESSAGE_LENGTH →
      resolve_selection repo amount typed 0 = Except.ok typed) ∧
    resolve_selection repo amount typed k = Except.ok c.message := by
  refine ⟨?_, ?_, resolve_pick repo amount typed k cs c hcs hk hget⟩
  · intro h
    simp only [resolve_selection, hcs, validate_input]
    rw [if_pos h]
  · intro h
    simp only [resolve_selection, hcs, validate_input]
    rw [if_neg (by omega)]

/-- C5 witness: an 81-byte typed message is rejected, a short typed message is
accepted, and selecting the sole commit returns its message. -/
theorem typed_only_length_check_witness :
    (MAX_MESSAGE_LENGTH < strBytes (String.mk (List.replicate 81 'b')) →
      resolve_selection (mkRepo [(0, "hello")] 0) 1 (String.mk (List.replicate 81 'b')) 0 =
        Except.error ("Message is too long, max is " ++ toString MAX_MESSAGE_LENGTH)) ∧
    (strBytes (String.mk (List.replicate 81 'b')) ≤ MAX_MESSAGE_LENGTH →
      resolve_selection (mkRepo [(0, "hello")] 0) 1 (String.mk (List.replicate 81 'b')) 0 =
        Except.ok (String.mk (List.replicate 81 'b'))) ∧
    resolve_selection (mkRepo [(0, "hello")] 0) 1 (String.mk (List.replicate 81 'b')) 1 =
      Except.ok (CommitObj.message ⟨1, [], 0, "hello", some ("hello"), 0⟩) :=
  typed_only_length_check (mkRepo [(0, "hello")] 0) 1 (String.mk (List.replicate 81 'b')) 1
    [⟨1, [], 0, "hello", some ("hello"), 0⟩] ⟨1, [], 0, "hello", some ("hello"), 0⟩
    (by decide) (by decide) (by decide)

/-- C5 counterexample: a commit message of 81 bytes selected by index 1 is
returned as the final message instead of being rejected as too long, so the
length check is not applied uniformly; and validate_input accepts the empty
typed input, so non-emptiness is not validated there either. -/
theorem derived_message_bypasses_length_check :
    strBytes (String.mk (List.replicate 81 'a')) = 81 ∧
    (resolve_selection (mkRepo [(0, String.mk (List.replicate 81 'a'))] 0) 1 ("x") 1).toOption =
      some (String.mk (List.replicate 81 'a')) ∧
    (validate_input ("")).toOption = some () := by
  refine ⟨by decide, by decide, by decide⟩

theorem downList_length (n : Nat) : (downList n).length = n := by
  induction n with
  | zero => rfl
  | succ n ih => simp [downList, ih]

/-- The last element of the first N + 1 ids of a descending walk from L. -/
theorem downList_take_getLast (N : Nat) :
    ∀ L, N < L → ((downList L).take (N + 1)).getLast? = some (L - N) := by
  induction N with
  | zero =>
    intro L hL
    match L, hL with
    | M + 1, _ => simp [downList]
  | succ N ih =>
    intro L hL
    match L, hL with
    | M + 1, hL =>
      have hNM : N < M := by omega
      match M, hNM with
      | K + 1, hNM =>
        have htail := ih (K + 1) hNM
        rw [show (downList (K + 2)).take (N + 2) =
          (K + 2) :: (downList (K + 1)).take (N + 1) from rfl]
        rw [show (downList (K + 1)).take (N + 1) = (K + 1) :: (downList K).take N from rfl]
        rw [List.getLast?_cons_cons]
        rw [show ((K + 1 : Nat) :: (downList K).take N) = (downList (K + 1)).take (N + 1) from rfl]
        rw [htail]
        congr 1
        omega

/-- On a chain-shaped repository the walk from id k descends to 1. -/
theorem walk_eq_down (repo : Repo) (L : Nat) (hC : ChainShape repo L) :
    ∀ fuel k, 1 ≤ k → k ≤ L → k ≤ fuel → walkOids repo fuel k = downList k := by
  intro fuel
  induction fuel with
  | zero => intro k h1 _ hf; omega
  | succ fuel ih =>
    intro k h1 hL hf
    obtain ⟨c, hlook, hid, hpar⟩ := hC k h1 hL
    have hstep : parentStep repo k = (if k = 1 then none else some (k - 1)) := by
      simp only [parentStep, hlook, hpar]
      by_cases hk1 : k = 1
      · rw [if_pos hk1, if_pos hk1]; rfl
      · rw [if_neg hk1, if_neg hk1]; rfl
    match k, h1 with
    | 1, _ =>
      rw [if_pos rfl] at hstep
      simp [walkOids, hstep, downList]
    | j + 2, _ =>
      rw [if_neg (by omega)] at hstep
      simp only [walkOids, hstep]
      rw [show j + 2 - 1 = j + 1 from rfl]
      rw [ih (j + 1) (by omega) (by omega) (by omega)]
      rfl

theorem chainObjects_length (specs : List (Nat × String)) :
    (chainObjects specs).length = specs.length := by
  induction specs with
  | nil => rfl
  | cons s rest ih => simp [chainObjects, ih]

/-- Lookup in a chain: id k (1-based from the root) is present with the
expected linkage. -/
theorem chainObjects_find (specs : List (Nat × String)) :
    ∀ k, 1 ≤ k → k ≤ specs.length →
      ∃ c, (chainObjects specs).find? (fun c => c.id == k) = some c ∧ c.id = k ∧
        c.parents = (if k = 1 then [] else [k - 1]) := by
  induction specs with
  | nil => intro k h1 h2; simp at h2; omega
  | cons s rest ih =>
    intro k h1 h2
    by_cases hk : k = rest.length + 1
    · subst hk
      refine ⟨chainHead s rest, ?_, rfl, ?_⟩
      · rw [show chainObjects (s :: rest) = chainHead s rest :: chainObjects rest from rfl]
        rw [List.find?_cons_of_pos]
        simp [chainHead]
      · show (if rest.length = 0 then ([] : List Nat) else [rest.length]) = _
        by_cases h0 : rest.length = 0
        · rw [if_pos h0, if_pos (by omega)]
        · rw [if_neg h0, if_neg (by omega)]
          simp
    · have hk2 : k ≤ rest.length := by
        simp only [List.length_cons] at h2
        omega
      obtain ⟨c, hfind, hid, hpar⟩ := ih k h1 hk2
      refine ⟨c, ?_, hid, hpar⟩
      rw [show chainObjects (s :: rest) = chainHead s rest :: chainObjects rest from rfl]
      rw [List.find?_cons_of_neg]
      · exact hfind
      · simp [chainHead]
        omega


/-- A chain repository is chain-shaped. -/
theorem mkRepo_shape (specs : List (Nat × String)) (index : Nat) :
    ChainShape (mkRepo specs index) specs.length := by
  intro k h1 h2
  obtain ⟨c, hfind, hid, hpar⟩ := chainObjects_find specs k h1 h2
  exact ⟨c, hfind, hid, hpar⟩

/-- find_commit is plain lookup when no object is corrupt. -/
theorem find_commit_nil (repo : Repo) (oid : Nat) (h : repo.broken = []) :
    find_commit repo oid = lookup repo oid := by
  simp only [find_commit, h]
  rw [if_neg (List.not_mem_nil _)]

/-- Facts about the repository produced by committing a fresh tip (id tid) on
top of a chain of L commits with boundary parent pid: its history length is
pid + 1 and the tip exposes the given tree, message and sole parent. -/
theorem new_tip_facts (objs : List CommitObj) (L pid idx nid tid : Nat) (msg : String)
    (sm : Option String) (tm : Int)
    (hshape : ∀ k, 1 ≤ k → k ≤ L →
      ∃ c, objs.find? (fun c => c.id == k) = some c ∧ c.id = k ∧
        c.parents = (if k = 1 then [] else [k - 1]))
    (hobjlen : objs.length = L)
    (htid : L < tid) (hpid1 : 1 ≤ pid) (hpidL : pid ≤ L) :
    historyLength (Repo.mk (CommitObj.mk tid [pid] idx msg sm tm :: objs)
      (some tid) idx nid []) = pid + 1 ∧
    tipTree (Repo.mk (CommitObj.mk tid [pid] idx msg sm tm :: objs)
      (some tid) idx nid []) = some idx ∧
    tipMessage (Repo.mk (CommitObj.mk tid [pid] idx msg sm tm :: objs)
      (some tid) idx nid []) = some msg ∧
    tipParents (Repo.mk (CommitObj.mk tid [pid] idx msg sm tm :: objs)
      (some tid) idx nid []) = some [pid] := by
  have hlookT : lookup (Repo.mk (CommitObj.mk tid [pid] idx msg sm tm :: objs)
      (some tid) idx nid []) tid = some (CommitObj.mk tid [pid] idx msg sm tm) := by
    show (CommitObj.mk tid [pid] idx msg sm tm :: objs).find? (fun c => c.id == tid) = _
    rw [List.find?_cons_of_pos _ (by simp)]
  have htip : tip (Repo.mk (CommitObj.mk tid [pid] idx msg sm tm :: objs)
      (some tid) idx nid []) = some (CommitObj.mk tid [pid] idx msg sm tm) := by
    simp only [tip, Option.some_bind]
    exact hlookT
  have hshape2 : ChainShape (Repo.mk (CommitObj.mk tid [pid] idx msg sm tm :: objs)
      (some tid) idx nid []) L := by
    intro k h1 h2
    obtain ⟨c, hf, hid, hp⟩ := hshape k h1 h2
    refine ⟨c, ?_, hid, hp⟩
    show (CommitObj.mk tid [pid] idx msg sm tm :: objs).find? (fun c => c.id == k) = some c
    rw [List.find?_cons_of_neg]
    · exact hf
    · simp
      omega
  have hstepT : parentStep (Repo.mk (CommitObj.mk tid [pid] idx msg sm tm :: objs)
      (some tid) idx nid []) tid = some pid := by
    simp only [parentStep, hlookT]
    rfl
  have hlen : (Repo.mk (CommitObj.mk tid [pid] idx msg sm tm :: objs)
      (some tid) idx nid []).objects.length = L + 1 := by
    show (CommitObj.mk tid [pid] idx msg sm tm :: objs).length = L + 1
    rw [List.length_cons, hobjlen]
  have hwalk : walkOids (Repo.mk (CommitObj.mk tid [pid] idx msg sm tm :: objs)
      (some tid) idx nid []) (L + 1) tid = tid :: downList pid := by
    have h1 : walkOids (Repo.mk (CommitObj.mk tid [pid] idx msg sm tm :: objs)
        (some tid) idx nid []) (L + 1) tid =
        tid :: (match parentStep (Repo.mk (CommitObj.mk tid [pid] idx msg sm tm :: objs)
          (some tid) idx nid []) tid with
          | none => []
          | some p => walkOids (Repo.mk (CommitObj.mk tid [pid] idx msg sm tm :: objs)
              (some tid) idx nid []) L p) := rfl
    rw [h1, hstepT]
    show tid :: walkOids (Repo.mk (CommitObj.mk tid [pid] idx msg sm tm :: objs)
      (some tid) idx nid []) L pid = tid :: downList pid
    rw [walk_eq_down _ L hshape2 L pid hpid1 hpidL hpidL]
  have hrev : revwalk (Repo.mk (CommitObj.mk tid [pid] idx msg sm tm :: objs)
      (some tid) idx nid []) = some (tid :: downList pid) := by
    simp only [revwalk, hlen, Option.map_some']
    exact congrArg some hwalk
  refine ⟨?_, ?_, ?_, ?_⟩
  · simp only [historyLength, hrev, List.length_cons, downList_length]
  · simp only [tipTree, htip, Option.map_some']
  · simp only [tipMessage, htip, Option.map_some']
  · simp only [tipParents, htip, Option.map_some']

/-- Full characterisation of git_soft_reset on a linear repository of
rest.length + 1 commits whose staged index equals the tip tree: the squash
succeeds, the new history length is the old length minus amount plus one, and
the new tip keeps the tree, carries the requested message, and has the
boundary commit as sole parent. -/
theorem squash_chain_spec (t : Nat) (m0 : String) (rest : List (Nat × String)) (N : Nat)
    (msg : String) (hN : N ≤ rest.length) :
    ∃ repo' oid,
      git_soft_reset (mkRepo ((t, m0) :: rest) t) N msg = Except.ok (repo', oid) ∧
      historyLength repo' = rest.length + 2 - N ∧
      tipTree repo' = some t ∧
      tipMessage repo' = some msg ∧
      tipParents repo' = some [rest.length + 1 - N] ∧
      historyLength (mkRepo ((t, m0) :: rest) t) = rest.length + 1 ∧
      tipTree (mkRepo ((t, m0) :: rest) t) = some t := by
  have hshape : ChainShape (mkRepo ((t, m0) :: rest) t) (rest.length + 1) := by
    have h := mkRepo_shape ((t, m0) :: rest) t
    simpa using h
  have hhead : (mkRepo ((t, m0) :: rest) t).head = some (rest.length + 1) := by
    show (if ((t, m0) :: rest).length = 0 then none else some (((t, m0) :: rest).length)) = _
    rw [if_neg (by simp)]
    simp
  have hobj : (mkRepo ((t, m0) :: rest) t).objects.length = rest.length + 1 := by
    show (chainObjects ((t, m0) :: rest)).length = _
    rw [chainObjects_length]
    simp
  have hwalk : walkOids (mkRepo ((t, m0) :: rest) t) (rest.length + 1) (rest.length + 1) =
      downList (rest.length + 1) :=
    walk_eq_down _ _ hshape _ _ (by omega) (by omega) (by omega)
  have hrev : revwalk (mkRepo ((t, m0) :: rest) t) = some (downList (rest.length + 1)) := by
    simp only [revwalk, hhead, hobj, Option.map_some']
    exact congrArg some hwalk
  have horig_len : historyLength (mkRepo ((t, m0) :: rest) t) = rest.length + 1 := by
    simp only [historyLength, hrev]
    exact downList_length _
  have hfind_top : lookup (mkRepo ((t, m0) :: rest) t) (rest.length + 1) =
      some (chainHead (t, m0) rest) := by
    show (chainObjects ((t, m0) :: rest)).find? _ = _
    rw [show chainObjects ((t, m0) :: rest) = chainHead (t, m0) rest :: chainObjects rest from rfl]
    rw [List.find?_cons_of_pos _ (by simp [chainHead])]
  have horig_tree : tipTree (mkRepo ((t, m0) :: rest) t) = some t := by
    simp only [tipTree, tip, hhead, Option.some_bind, hfind_top, Option.map_some']
    rfl
  have htake := downList_take_getLast N (rest.length + 1) (by omega)
  have hiter : iter_topological_commits (mkRepo ((t, m0) :: rest) t) (N + 1) =
      some (((downList (rest.length + 1)).take (N + 1)).map
        (find_commit (mkRepo ((t, m0) :: rest) t))) := by
    simp only [iter_topological_commits, hrev, Option.map_some']
  obtain ⟨cB, hfindB, hidB, hparB⟩ :=
    chainObjects_find ((t, m0) :: rest) (rest.length + 1 - N) (by omega)
      (by simp only [List.length_cons]; omega)
  have hfcB : find_commit (mkRepo ((t, m0) :: rest) t) (rest.length + 1 - N) = some cB := by
    rw [find_commit_nil _ _ rfl]
    exact hfindB
  have hlast : ((((downList (rest.length + 1)).take (N + 1)).map
      (find_commit (mkRepo ((t, m0) :: rest) t)))).getLast? = some (some cB) := by
    rw [List.getLast?_map, htake, Option.map_some', hfcB]
  have hfoc : find_old_commit (mkRepo ((t, m0) :: rest) t) N = Except.ok cB := by
    simp only [find_old_commit, hiter, hlast]
  have hreset : git_soft_reset (mkRepo ((t, m0) :: rest) t) N msg =
      Except.ok (commit_with_msg ({ mkRepo ((t, m0) :: rest) t with head := some cB.id } : Repo)
        msg) := by
    simp only [git_soft_reset, hfoc]
  have hrepo1 : ({ mkRepo ((t, m0) :: rest) t with head := some cB.id } : Repo) =
      Repo.mk (chainObjects ((t, m0) :: rest)) (some cB.id) t (rest.length + 2) [] := rfl
  have hfcB1 : find_commit (Repo.mk (chainObjects ((t, m0) :: rest)) (some cB.id) t
      (rest.length + 2) []) cB.id = some cB := by
    rw [find_commit_nil _ _ rfl]
    show (chainObjects ((t, m0) :: rest)).find? (fun c => c.id == cB.id) = some cB
    rw [hidB]
    exact hfindB
  have hcommit : commit_with_msg (Repo.mk (chainObjects ((t, m0) :: rest)) (some cB.id) t
      (rest.length + 2) []) msg =
      (Repo.mk (CommitObj.mk (rest.length + 2) [cB.id] t msg (some (firstLine msg)) 0
          :: chainObjects ((t, m0) :: rest))
        (some (rest.length + 2)) t (rest.length + 3) [], rest.length + 2) := by
    simp only [commit_with_msg, Option.some_bind, hfcB1]
  have hfacts := new_tip_facts (chainObjects ((t, m0) :: rest)) (rest.length + 1)
    (rest.length + 1 - N) t (rest.length + 3) (rest.length + 2) msg (some (firstLine msg)) 0
    (fun k h1 h2 => chainObjects_find ((t, m0) :: rest) k h1
      (by simp only [List.length_cons]; omega))
    (by rw [chainObjects_length]; simp)
    (by omega) (by omega) (by omega)
  refine ⟨_, rest.length + 2, ?_, ?_, hfacts.2.1, hfacts.2.2.1, hfacts.2.2.2, horig_len, horig_tree⟩
  · rw [hreset, hrepo1, hcommit, hidB]
  · rw [hfacts.1]
    omega

/-- C1: after a successful squash of amount N on a linear repository with
history length L = rest.length + 1 and a clean staged index (index equal to
the tip tree), the ancestry length from the new tip decreases by exactly N - 1
(stated additively: new length + N = old length + 1), and the tree reachable
from the new tip equals the tree reachable from the pre-squash tip. -/
theorem squash_preserves_tree_and_shrinks_history (t : Nat) (m0 : String)
    (rest : List (Nat × String)) (N : Nat) (msg : String) (hN : N ≤ rest.length) :
    ∃ p, git_soft_reset (mkRepo ((t, m0) :: rest) t) N msg = Except.ok p ∧
      historyLength p.1 + N = historyLength (mkRepo ((t, m0) :: rest) t) + 1 ∧
      tipTree p.1 = tipTree (mkRepo ((t, m0) :: rest) t) := by
  obtain ⟨repo', oid, heq, hlen, htree, _, _, holen, hotree⟩ :=
    squash_chain_spec t m0 rest N msg hN
  refine ⟨(repo', oid), heq, ?_, ?_⟩
  · show historyLength repo' + N = historyLength (mkRepo ((t, m0) :: rest) t) + 1
    rw [hlen, holen]
    omega
  · show tipTree repo' = tipTree (mkRepo ((t, m0) :: rest) t)
    rw [htree, hotree]

/-- C1 witness: a two-commit repository squashed with amount 1. -/
theorem squash_preserves_tree_and_shrinks_history_witness :
    ∃ p, git_soft_reset (mkRepo [(0, "a"), (1, "b")] 0) 1 ("m") = Except.ok p ∧
      historyLength p.1 + 1 = historyLength (mkRepo [(0, "a"), (1, "b")] 0) + 1 ∧
      tipTree p.1 = tipTree (mkRepo [(0, "a"), (1, "b")] 0) :=
  squash_preserves_tree_and_shrinks_history 0 ("a") [(1, "b")] 1 ("m") (by decide)

/-- C2 counterexample: on a two-commit repository, squash of amount 1 yields a
history of length 2, not L - N = 1: the walk of amount + 1 = 2 commits ends at
the root, and the new commit is added on top of it. -/
theorem history_length_is_not_L_minus_N :
    (git_soft_reset (mkRepo [(0, "b"), (1, "a")] 0) 1 ("m")).toOption.map
      (fun p => historyLength p.1) = some 2 ∧
    ¬ ((git_soft_reset (mkRepo [(0, "b"), (1, "a")] 0) 1 ("m")).toOption.map
      (fun p => historyLength p.1) = some (2 - 1)) := by
  refine ⟨by decide, by decide⟩

/-- C2 (amended): for all N and a linear history of length L = rest.length + 1
with L greater than N, after squash(N, msg) the new history length is exactly
L - N + 1 (the N absorbed commits are replaced by one new commit), and the new
tip message equals msg. -/
theorem history_length_and_message_after_squash (t : Nat) (m0 : String)
    (rest : List (Nat × String)) (N : Nat) (msg : String) (hN : N ≤ rest.length) :
    ∃ p, git_soft_reset (mkRepo ((t, m0) :: rest) t) N msg = Except.ok p ∧
      historyLength p.1 = (rest.length + 1) - N + 1 ∧
      tipMessage p.1 = some msg := by
  obtain ⟨repo', oid, heq, hlen, _, hmsg, _, _, _⟩ := squash_chain_spec t m0 rest N msg hN
  refine ⟨(repo', oid), heq, ?_, hmsg⟩
  show historyLength repo' = rest.length + 1 - N + 1
  rw [hlen]
  omega

/-- C2 witness: a two-commit repository squashed with amount 1 has history
length 2 - 1 + 1 = 2 and the requested message at the tip. -/
theorem history_length_and_message_after_squash_witness :
    ∃ p, git_soft_reset (mkRepo [(0, "a"), (1, "b")] 0) 1 ("m") = Except.ok p ∧
      historyLength p.1 = (List.length [(1, "b")] + 1) - 1 + 1 ∧
      tipMessage p.1 = some ("m") :=
  history_length_and_message_after_squash 0 ("a") [(1, "b")] 1 ("m") (by decide)

/-- C3: requesting amount 5 on a three-commit repository does not fail: the
bounded walk simply ends at the root, git_soft_reset resets to the root and
commits on top of it, mutating HEAD (3 becomes 4) and leaving a two-commit
history, where the claim requires an InsufficientHistory failure before any
mutation. -/
theorem oversquash_mutates_repository :
    (git_soft_reset (mkRepo [(0, "c2"), (1, "c1"), (2, "c0")] 0) 5 ("m")).toOption.map
      (fun p => (historyLength p.1, p.1.head)) = some (2, some 4) ∧
    (mkRepo [(0, "c2"), (1, "c1"), (2, "c0")] 0).head = some 3 := by
  refine ⟨by decide, by decide⟩

/-- C4 counterexample: on a one-commit repository, squash(0, noop) yields a
two-commit history whose tip has one parent (the original commit), not a
one-commit history with a zero-parent tip. -/
theorem squash_zero_single_commit_result :
    (git_soft_reset (mkRepo [(5, "c0")] 5) 0 ("noop")).toOption.map
      (fun p => (historyLength p.1, tipParents p.1, tipMessage p.1, tipTree p.1)) =
      some (2, some [1], some ("noop"), some 5) ∧
    ¬ ((git_soft_reset (mkRepo [(5, "c0")] 5) 0 ("noop")).toOption.map
      (fun p => (historyLength p.1, tipParents p.1, tipMessage p.1, tipTree p.1)) =
      some (1, some [], some ("noop"), some 5)) := by
  refine ⟨by decide, by decide⟩

/-- C4 (amended): for a repository with exactly one commit and a clean index,
squash(0, noop) succeeds and yields a two-commit history: a new tip with the
identical tree, exactly one parent (the original commit), and message noop. -/
theorem squash_zero_on_single_commit (t : Nat) (m : String) :
    ∃ p, git_soft_reset (mkRepo [(t, m)] t) 0 ("noop") = Except.ok p ∧
      historyLength p.1 = 2 ∧ tipMessage p.1 = some ("noop") ∧
      tipTree p.1 = some t ∧ tipParents p.1 = some [1] := by
  obtain ⟨repo', oid, heq, hlen, htree, hmsg, hpar, _, _⟩ :=
    squash_chain_spec t m [] 0 ("noop") (by omega)
  refine ⟨(repo', oid), heq, ?_, hmsg, htree, ?_⟩
  · show historyLength repo' = 2
    rw [hlen]
    simp
  · show tipParents repo' = some [1]
    rw [hpar]
    simp

/-- C9 (amended): once the walk is initialised (HEAD resolves), the commits
enumeration never fails: per-element lookup failures are skipped. In the
boundary walk of find_old_commit, lookup failures on elements before the last
are discarded, but a lookup failure on the last walked element itself (the
boundary commit) is surfaced as a hard error rather than skipped. -/
theorem walk_skip_behavior (repo : Repo) (amount : Nat) (h : Nat)
    (hh : repo.head = some h) :
    (∃ l, commits repo amount = Except.ok l) ∧
    (∀ oid, ((walkOids repo repo.objects.length h).take (amount + 1)).getLast? = some oid →
      find_commit repo oid = none →
      find_old_commit repo amount = Except.error ("object not found")) ∧
    (∀ oid c, ((walkOids repo repo.objects.length h).take (amount + 1)).getLast? = some oid →
      find_commit repo oid = some c →
      find_old_commit repo amount = Except.ok c) := by
  have hrev : revwalk repo = some (walkOids repo repo.objects.length h) := by
    simp only [revwalk, hh, Option.map_some']
  refine ⟨?_, ?_, ?_⟩
  · refine ⟨(((walkOids repo repo.objects.length h).take amount).map
      (fun oid => find_commit repo oid)).filterMap id, ?_⟩
    simp only [commits, iter_topological_commits, hrev, Option.map_some']
  · intro oid hlastoid hfc
    have hl : (((walkOids repo repo.objects.length h).take (amount + 1)).map
        (find_commit repo)).getLast? = some none := by
      rw [List.getLast?_map, hlastoid, Option.map_some', hfc]
    simp only [find_old_commit, iter_topological_commits, hrev, Option.map_some', hl]
  · intro oid c hlastoid hfc
    have hl : (((walkOids repo repo.objects.length h).take (amount + 1)).map
        (find_commit repo)).getLast? = some (some c) := by
      rw [List.getLast?_map, hlastoid, Option.map_some', hfc]
    simp only [find_old_commit, iter_topological_commits, hrev, Option.map_some', hl]

/-- C9 witness: the three-commit repository with a corrupt middle commit. -/
theorem walk_skip_behavior_witness :
    (∃ l, commits brokenRepo 1 = Except.ok l) ∧
    (∀ oid, ((walkOids brokenRepo brokenRepo.objects.length 3).take (1 + 1)).getLast? = some oid →
      find_commit brokenRepo oid = none →
      find_old_commit brokenRepo 1 = Except.error ("object not found")) ∧
    (∀ oid c, ((walkOids brokenRepo brokenRepo.objects.length 3).take (1 + 1)).getLast? = some oid →
      find_commit brokenRepo oid = some c →
      find_old_commit brokenRepo 1 = Except.ok c) :=
  walk_skip_behavior brokenRepo 1 3 (by decide)

/-- C9 counterexample: on the broken repository the walk initialises (HEAD
resolves), the lookup of commit 2 fails, and find_old_commit with amount 1,
whose boundary element is exactly commit 2, aborts with a hard error instead
of skipping it; yet the commits enumeration over the same repository skips the
broken commit and continues with the root behind it. -/
theorem boundary_lookup_failure_aborts :
    revwalk brokenRepo ≠ none ∧
    find_commit brokenRepo 2 = none ∧
    find_old_commit brokenRepo 1 = Except.error ("object not found") ∧
    (commits brokenRepo 3).toOption =
      some [⟨3, [2], 0, "f2", some ("f2"), 0⟩, ⟨1, [], 2, "f0", some ("f0"), 0⟩] := by
  refine ⟨by decide, by decide, by decide, by decide⟩
